import Mathlib

/-!
Shallow embedding of the pdn-avif native conversion layer
(`src/AvifNative/ChromaSubsampling.cpp` and `src/AvifNative/AvifNative.cpp`).

Machine bytes are modelled as `Nat`, the C `float` computations as exact
rationals `ℚ`, and writable plane memory as `Nat → Option Nat` (a map from a
byte address to the byte stored there; `none` is a byte never written, i.e.
uninitialized allocation contents).  The C loops become `List.foldl` over
`List.range`.
-/

namespace AvifNative

/-- One interleaved BGRA pixel (byte order: blue, green, red, alpha). -/
structure ColorBgra where
  b : Nat
  g : Nat
  r : Nat
  a : Nat

/-- Caller-owned raster image descriptor.  `scan0` maps a byte offset to the
4-byte BGRA group starting at that offset. -/
structure BitmapData where
  width : Nat
  height : Nat
  stride : Nat
  scan0 : Nat → ColorBgra

/-- `reinterpret_cast<const ColorBgra*>(scan0 + y * stride + x * sizeof(ColorBgra))`. -/
def BitmapData.pixelAt (img : BitmapData) (x y : Nat) : ColorBgra :=
  img.scan0 (y * img.stride + x * 4)

/-- Modelled from the spec: the chroma subsampling enumerants declared in
`AvifNative.h` (not under `src/`): monochrome 4:0:0, 4:2:0, 4:2:2, 4:4:4 and
identity-matrix mode; `Other v` stands for any further underlying enum value,
which reaches the `default` arm of the pixel-format switch. -/
inductive YUVChromaSubsampling where
  | Subsampling400
  | Subsampling420
  | Subsampling422
  | Subsampling444
  | IdentityMatrix
  | Other (v : Nat)
deriving DecidableEq

inductive YuvChannel where
  | Y
  | U
  | V
deriving DecidableEq

/-- Output of the Color Coefficient Resolver (`GetYUVCoefficiants` in
`YUVConversionHelpers`, not under `src/`): the three YUV mixing weights.
The theorems below quantify over arbitrary coefficient triples, covering
every possible resolver output. -/
structure YUVCoefficiants where
  kr : ℚ
  kg : ℚ
  kb : ℚ

structure YUVBlock where
  y : ℚ
  u : ℚ
  v : ℚ

/-- `avifRoundf`: `floorf(v + 0.5f)`. -/
def avifRoundf (v : ℚ) : ℚ := ⌊v + 1/2⌋

/-- `yuvToUNorm`: bias chroma channels by +0.5, clamp to [0,1], scale by 255,
round half up, truncate to an 8-bit sample. -/
def yuvToUNorm (chan : YuvChannel) (v : ℚ) : Nat :=
  let v1 := if chan ≠ YuvChannel.Y then v + 1/2 else v
  let v2 := if v1 < 0 then 0 else if v1 > 1 then 1 else v1
  (⌊avifRoundf (v2 * 255)⌋).toNat

/-- A byte-addressed plane: `none` is a byte never written. -/
def Plane : Type := Nat → Option Nat

/-- A single byte store `p[addr] = val`. -/
def planeWrite (p : Plane) (addr val : Nat) : Plane :=
  fun a => if a = addr then some val else p a

/-- Apply a list of `(address, value)` byte stores in order. -/
def applyWrites (p : Plane) (ws : List (Nat × Nat)) : Plane :=
  ws.foldl (fun q w => planeWrite q w.1 w.2) p

/-- The contents of a freshly allocated (uninitialized) plane. -/
def freshPlane : Plane := fun _ => none

/-- The three pre-allocated planes `ColorToYUV8` writes into. -/
structure YUVPlanes where
  yPlane : Plane
  uPlane : Plane
  vPlane : Plane

/-- Lines 130-142 of `ChromaSubsampling.cpp`: unpack one pixel into
normalized values and convert RGB to YUV; this is the value the source
stores in `yuvBlock[blockX][blockY]` for the pixel at `(x, y)`. -/
def rgbToYuv (kc : YUVCoefficiants) (pixel : ColorBgra) : YUVBlock :=
  let r : ℚ := (pixel.r : ℚ) / 255
  let g : ℚ := (pixel.g : ℚ) / 255
  let b : ℚ := (pixel.b : ℚ) / 255
  let bigY : ℚ := kc.kr * r + kc.kg * g + kc.kb * b
  { y := bigY
    u := (b - bigY) / (2 * (1 - kc.kb))
    v := (r - bigY) / (2 * (1 - kc.kr)) }

/-- Block extent along one axis: 2, shrunk to 1 at an odd boundary
(`blockWidth = 1` when `imageX + 1 >= width`, likewise for the height). -/
def blockDim (limit pos : Nat) : Nat := if pos + 1 ≥ limit then 1 else 2

/-- The `sumU` accumulation of the 4:2:0 branch: sum of the `u` values of the
block at `(imageX, imageY)` of extent `bw × bh`. -/
def blockSumU (img : BitmapData) (kc : YUVCoefficiants) (imageX imageY bw bh : Nat) : ℚ :=
  (List.range bh).foldl (fun s bJ =>
    (List.range bw).foldl (fun t bI =>
      t + (rgbToYuv kc (img.pixelAt (imageX + bI) (imageY + bJ))).u) s) 0

/-- The `sumV` accumulation of the 4:2:0 branch. -/
def blockSumV (img : BitmapData) (kc : YUVCoefficiants) (imageX imageY bw bh : Nat) : ℚ :=
  (List.range bh).foldl (fun s bJ =>
    (List.range bw).foldl (fun t bI =>
      t + (rgbToYuv kc (img.pixelAt (imageX + bI) (imageY + bJ))).v) s) 0

/-- The `sumU` accumulation of one row of the 4:2:2 branch. -/
def rowSumU (img : BitmapData) (kc : YUVCoefficiants) (imageX y bw : Nat) : ℚ :=
  (List.range bw).foldl (fun s bX =>
    s + (rgbToYuv kc (img.pixelAt (imageX + bX) y)).u) 0

/-- The `sumV` accumulation of one row of the 4:2:2 branch. -/
def rowSumV (img : BitmapData) (kc : YUVCoefficiants) (imageX y bw : Nat) : ℚ :=
  (List.range bw).foldl (fun s bX =>
    s + (rgbToYuv kc (img.pixelAt (imageX + bX) y)).v) 0

/-- Per-pixel body of the block conversion loop (lines 123-154): write the
luma sample, and for 4:4:4 also the full-resolution chroma samples. -/
def writePixel (img : BitmapData) (kc : YUVCoefficiants) (yuvFormat : YUVChromaSubsampling)
    (yS uS vS imageX imageY blockX blockY : Nat) (st : YUVPlanes) : YUVPlanes :=
  let x := imageX + blockX
  let y := imageY + blockY
  let blk := rgbToYuv kc (img.pixelAt x y)
  let st1 : YUVPlanes :=
    { st with yPlane := planeWrite st.yPlane (x + y * yS) (yuvToUNorm YuvChannel.Y blk.y) }
  if yuvFormat = YUVChromaSubsampling.Subsampling444 then
    { st1 with
        uPlane := planeWrite st1.uPlane (x + y * uS) (yuvToUNorm YuvChannel.U blk.u)
        vPlane := planeWrite st1.vPlane (x + y * vS) (yuvToUNorm YuvChannel.V blk.v) }
  else st1

/-- The per-pixel double loop of one block (lines 123-154), `blockY` outer
and `blockX` inner. -/
def blockPixelLoop (img : BitmapData) (kc : YUVCoefficiants)
    (yuvFormat : YUVChromaSubsampling) (yS uS vS imageX imageY : Nat)
    (st : YUVPlanes) : YUVPlanes :=
  (List.range (blockDim img.height imageY)).foldl (fun s blockY =>
    (List.range (blockDim img.width imageX)).foldl (fun t blockX =>
      writePixel img kc yuvFormat yS uS vS imageX imageY blockX blockY t) s) st

/-- The per-row averaging loop of the 4:2:2 branch (lines 186-202). -/
def chroma422Loop (img : BitmapData) (kc : YUVCoefficiants)
    (uS vS imageX imageY : Nat) (st : YUVPlanes) : YUVPlanes :=
  (List.range (blockDim img.height imageY)).foldl (fun s blockY =>
    let blockWidth := blockDim img.width imageX
    let avgU := rowSumU img kc imageX (imageY + blockY) blockWidth / (blockWidth : ℚ)
    let avgV := rowSumV img kc imageX (imageY + blockY) blockWidth / (blockWidth : ℚ)
    let x := imageX / 2
    let y := imageY + blockY
    { s with
        uPlane := planeWrite s.uPlane (x + y * uS) (yuvToUNorm YuvChannel.U avgU)
        vPlane := planeWrite s.vPlane (x + y * vS) (yuvToUNorm YuvChannel.V avgV) }) st

/-- One iteration of the 2x2 block loop of `ColorToYUV8` (lines 110-204):
convert the block pixel by pixel, then populate any subsampled chroma
channels with averages from the block. -/
def processBlock (img : BitmapData) (kc : YUVCoefficiants) (yuvFormat : YUVChromaSubsampling)
    (yS uS vS imageX imageY : Nat) (st : YUVPlanes) : YUVPlanes :=
  let blockWidth := blockDim img.width imageX
  let blockHeight := blockDim img.height imageY
  let st1 := blockPixelLoop img kc yuvFormat yS uS vS imageX imageY st
  if yuvFormat = YUVChromaSubsampling.Subsampling420 then
    let totalSamples : ℚ := ((blockWidth * blockHeight : Nat) : ℚ)
    let avgU := blockSumU img kc imageX imageY blockWidth blockHeight / totalSamples
    let avgV := blockSumV img kc imageX imageY blockWidth blockHeight / totalSamples
    let x := imageX / 2
    let y := imageY / 2
    { st1 with
        uPlane := planeWrite st1.uPlane (x + y * uS) (yuvToUNorm YuvChannel.U avgU)
        vPlane := planeWrite st1.vPlane (x + y * vS) (yuvToUNorm YuvChannel.V avgV) }
  else if yuvFormat = YUVChromaSubsampling.Subsampling422 then
    chroma422Loop img kc uS vS imageX imageY st1
  else st1

/-- The values taken by a loop counter `for (i = 0; i < limit; i += 2)`. -/
def evenPositions (limit : Nat) : List Nat :=
  (List.range ((limit + 1) / 2)).map (fun i => 2 * i)

/-- `ColorToYUV8` (`ChromaSubsampling.cpp` lines 87-206).  The pre-allocated
plane pointers of the source signature are the components of `st`; the
source resolves the color conversion info to the coefficient triple `kc` via
`GetYUVCoefficiants` (whose definition is not under `src/`), so the theorems
below quantify over every coefficient triple. -/
def ColorToYUV8 (bgraImage : BitmapData) (kc : YUVCoefficiants)
    (yuvFormat : YUVChromaSubsampling) (yS uS vS : Nat) (st : YUVPlanes) : YUVPlanes :=
  (evenPositions bgraImage.height).foldl (fun s imageY =>
    (evenPositions bgraImage.width).foldl (fun t imageX =>
      processBlock bgraImage kc yuvFormat yS uS vS imageX imageY t) s) st

/-- `AlphaToY8` (`ChromaSubsampling.cpp` lines 208-226): copy the alpha byte
of every pixel into the luma plane. -/
def AlphaToY8 (bgraImage : BitmapData) (yS : Nat) (p : Plane) : Plane :=
  (List.range bgraImage.height).foldl (fun q y =>
    (List.range bgraImage.width).foldl (fun q2 x =>
      planeWrite q2 (x + y * yS) (bgraImage.pixelAt x y).a) q) p

/-- `memset(base, 0, len)` on a byte plane. -/
def memsetRow (p : Plane) (base len : Nat) : Plane :=
  fun a => if base ≤ a ∧ a < base + len then some 0 else p a

/-- The codec's native planar image object as visible to this layer: three
byte planes with their strides, plus the flags the code sets.  A fresh
allocation has uninitialized (`none`) plane bytes; for an I420 image the
chroma planes span `ceil(width / 2) × ceil(height / 2)` samples (spec §3). -/
structure AOMImage where
  yStride : Nat
  uStride : Nat
  vStride : Nat
  yPlane : Plane
  uPlane : Plane
  vPlane : Plane
  fullRange : Bool
  monochrome : Bool

/-- `ConvertAlphaToAOMImage` (`ChromaSubsampling.cpp` lines 258-290) after a
successful I420 allocation with the given plane strides: set the full-range
and monochrome flags, copy the alpha channel into the luma plane, then
`memset` rows `0 <= y < height / 2` of the U and V planes to zero. -/
def ConvertAlphaToAOMImage (bgraImage : BitmapData) (yS uS vS : Nat) : AOMImage :=
  let yPlane := AlphaToY8 bgraImage yS freshPlane
  let uvHeight := bgraImage.height / 2
  let uPlane := (List.range uvHeight).foldl (fun p y => memsetRow p (y * uS) uS) freshPlane
  let vPlane := (List.range uvHeight).foldl (fun p y => memsetRow p (y * vS) vS) freshPlane
  { yStride := yS
    uStride := uS
    vStride := vS
    yPlane := yPlane
    uPlane := uPlane
    vPlane := vPlane
    fullRange := true
    monochrome := true }

/-- The encoder result codes of `AvifNative.h` (header not under `src/`);
the named codes are those of spec §7, and `CodecError n` stands for the
codec-layer failure codes passed through unchanged. -/
inductive EncoderStatus where
  | Ok
  | NullParameter
  | UnknownYUVFormat
  | UnsupportedColorMatrix
  | OutOfMemory
  | UserCancelled
  | CodecError (n : Nat)
deriving DecidableEq

/-- The aom pixel-format codes the switch in `CompressWithAOM` selects. -/
inductive AomImgFmt where
  | I420
  | I422
  | I444
deriving DecidableEq

/-- Encode options: the subsampling mode enumerant; the quality and codec
tuning parameters are opaque to this layer and do not affect it. -/
structure EncoderOptions where
  yuvFormat : YUVChromaSubsampling

/-- Progress context: mutable counters plus the host's callback
`bool(doneCount, totalCount)`; a `false` return means cancel. -/
structure ProgressContext where
  progressDone : Nat
  progressTotal : Nat
  progressCallback : Nat → Nat → Bool

/-- Observable side effects of one `CompressImage` call: how often the
progress callback ran, how many native image allocations were attempted and
succeeded (`aom_img_alloc`), how many native images were freed
(`aom_img_free`, via the `ScopedAOMImage` deleter), how many conversions
ran, and how often the codec was invoked (`CompressAOMImages`). -/
structure Trace where
  callbackCalls : Nat
  allocAttempts : Nat
  allocSuccesses : Nat
  frees : Nat
  colorConversions : Nat
  alphaConversions : Nat
  codecCalls : Nat
deriving DecidableEq

def Trace.empty : Trace :=
  { callbackCalls := 0
    allocAttempts := 0
    allocSuccesses := 0
    frees := 0
    colorConversions := 0
    alphaConversions := 0
    codecCalls := 0 }

/-- The `switch (yuvFormat)` of `CompressWithAOM` (`AvifNative.cpp` lines
54-69): `none` is the `default` arm returning `UnknownYUVFormat`. -/
def aomFormatFor : YUVChromaSubsampling → Option AomImgFmt
  | YUVChromaSubsampling.Subsampling400 => some AomImgFmt.I420
  | YUVChromaSubsampling.Subsampling420 => some AomImgFmt.I420
  | YUVChromaSubsampling.Subsampling422 => some AomImgFmt.I422
  | YUVChromaSubsampling.Subsampling444 => some AomImgFmt.I444
  | YUVChromaSubsampling.IdentityMatrix => some AomImgFmt.I444
  | YUVChromaSubsampling.Other _ => none

/-- `CompressWithAOM` (`AvifNative.cpp` lines 42-95) at the level of its
observable effects.  The external collaborators are oracles: `colorAllocOk`
and `alphaAllocOk` say whether the first and second `aom_img_alloc` call
succeeds, and `codecStatus` is the status `CompressAOMImages` returns.
`alphaRequested` is `compressedAlphaImage != nullptr`.  Each
`ConvertColorToAOMImage` / `ConvertAlphaToAOMImage` call is one allocation
attempt followed, on success, by one conversion; `ScopedAOMImage` frees
every successfully allocated image on every exit path. -/
def CompressWithAOM (encodeOptions : EncoderOptions)
    (alphaRequested colorAllocOk alphaAllocOk : Bool)
    (codecStatus : EncoderStatus) (t : Trace) : EncoderStatus × Trace :=
  match aomFormatFor encodeOptions.yuvFormat with
  | none => (EncoderStatus.UnknownYUVFormat, t)
  | some _ =>
    let t1 := { t with allocAttempts := t.allocAttempts + 1 }
    if colorAllocOk = false then
      (EncoderStatus.OutOfMemory, t1)
    else
      let t2 := { t1 with
                    allocSuccesses := t1.allocSuccesses + 1
                    colorConversions := t1.colorConversions + 1 }
      if alphaRequested then
        let t3 := { t2 with allocAttempts := t2.allocAttempts + 1 }
        if alphaAllocOk = false then
          (EncoderStatus.OutOfMemory, { t3 with frees := t3.frees + 1 })
        else
          let t4 := { t3 with
                        allocSuccesses := t3.allocSuccesses + 1
                        alphaConversions := t3.alphaConversions + 1 }
          let t5 := { t4 with codecCalls := t4.codecCalls + 1 }
          (codecStatus, { t5 with frees := t5.frees + 2 })
      else
        let t3 := { t2 with codecCalls := t2.codecCalls + 1 }
        (codecStatus, { t3 with frees := t3.frees + 1 })

/-- `CompressImage` (`AvifNative.cpp` lines 126-153).  Nullable pointer
parameters are `Option`s; `outputAllocator` and `compressedColorImage` /
`compressedAlphaImage` record whether those pointers are non-null.  The
result carries the status, the progress context after the call (the source
increments `progressDone` before invoking the callback), and the effect
trace. -/
def CompressImage (image : Option BitmapData) (encodeOptions : Option EncoderOptions)
    (progressContext : Option ProgressContext)
    (outputAllocator compressedColorImage compressedAlphaImage : Bool)
    (colorAllocOk alphaAllocOk : Bool) (codecStatus : EncoderStatus) :
    EncoderStatus × Option ProgressContext × Trace :=
  match image, encodeOptions, progressContext with
  | some _, some opts, some pc =>
    if outputAllocator = false ∨ compressedColorImage = false then
      (EncoderStatus.NullParameter, some pc, Trace.empty)
    else
      let pc1 := { pc with progressDone := pc.progressDone + 1 }
      let t := { Trace.empty with callbackCalls := 1 }
      if pc1.progressCallback pc1.progressDone pc1.progressTotal = false then
        (EncoderStatus.UserCancelled, some pc1, t)
      else
        let r := CompressWithAOM opts compressedAlphaImage colorAllocOk alphaAllocOk
                   codecStatus t
        (r.1, some pc1, r.2)
  | _, _, _ => (EncoderStatus.NullParameter, progressContext, Trace.empty)

/-!
Write traces.  To reason about the imperative plane stores, each loop of
`ColorToYUV8` / `AlphaToY8` is characterized below by the list of
`(address, value)` byte stores it performs, in program order; the lemmas
prove that running the embedded code equals applying its write trace.
-/

/-- The pixel coordinates of the block at `(imageX, imageY)`, in loop order
(row by row). -/
def pixelsOfBlock (img : BitmapData) (imageX imageY : Nat) : List (Nat × Nat) :=
  (List.range (blockDim img.height imageY)).flatMap (fun bY =>
    (List.range (blockDim img.width imageX)).map (fun bX => (imageX + bX, imageY + bY)))

/-- The luma stores of one block of `ColorToYUV8` (every mode writes them). -/
def yWritesOfBlock (img : BitmapData) (kc : YUVCoefficiants) (yS imageX imageY : Nat) :
    List (Nat × Nat) :=
  (pixelsOfBlock img imageX imageY).map (fun q =>
    (q.1 + q.2 * yS, yuvToUNorm YuvChannel.Y (rgbToYuv kc (img.pixelAt q.1 q.2)).y))

/-- The U-plane stores of one block of `ColorToYUV8`, by subsampling mode. -/
def uWritesOfBlock (img : BitmapData) (kc : YUVCoefficiants)
    (yuvFormat : YUVChromaSubsampling) (uS imageX imageY : Nat) : List (Nat × Nat) :=
  if yuvFormat = YUVChromaSubsampling.Subsampling444 then
    (pixelsOfBlock img imageX imageY).map (fun q =>
      (q.1 + q.2 * uS, yuvToUNorm YuvChannel.U (rgbToYuv kc (img.pixelAt q.1 q.2)).u))
  else if yuvFormat = YUVChromaSubsampling.Subsampling420 then
    [(imageX / 2 + imageY / 2 * uS,
      yuvToUNorm YuvChannel.U
        (blockSumU img kc imageX imageY (blockDim img.width imageX) (blockDim img.height imageY) /
          ((blockDim img.width imageX * blockDim img.height imageY : Nat) : ℚ)))]
  else if yuvFormat = YUVChromaSubsampling.Subsampling422 then
    (List.range (blockDim img.height imageY)).map (fun bY =>
      (imageX / 2 + (imageY + bY) * uS,
        yuvToUNorm YuvChannel.U
          (rowSumU img kc imageX (imageY + bY) (blockDim img.width imageX) /
            ((blockDim img.width imageX : Nat) : ℚ))))
  else []

/-- The V-plane stores of one block of `ColorToYUV8`, by subsampling mode. -/
def vWritesOfBlock (img : BitmapData) (kc : YUVCoefficiants)
    (yuvFormat : YUVChromaSubsampling) (vS imageX imageY : Nat) : List (Nat × Nat) :=
  if yuvFormat = YUVChromaSubsampling.Subsampling444 then
    (pixelsOfBlock img imageX imageY).map (fun q =>
      (q.1 + q.2 * vS, yuvToUNorm YuvChannel.V (rgbToYuv kc (img.pixelAt q.1 q.2)).v))
  else if yuvFormat = YUVChromaSubsampling.Subsampling420 then
    [(imageX / 2 + imageY / 2 * vS,
      yuvToUNorm YuvChannel.V
        (blockSumV img kc imageX imageY (blockDim img.width imageX) (blockDim img.height imageY) /
          ((blockDim img.width imageX * blockDim img.height imageY : Nat) : ℚ)))]
  else if yuvFormat = YUVChromaSubsampling.Subsampling422 then
    (List.range (blockDim img.height imageY)).map (fun bY =>
      (imageX / 2 + (imageY + bY) * vS,
        yuvToUNorm YuvChannel.V
          (rowSumV img kc imageX (imageY + bY) (blockDim img.width imageX) /
            ((blockDim img.width imageX : Nat) : ℚ))))
  else []

/-- The complete luma write trace of `ColorToYUV8`. -/
def yWrites (img : BitmapData) (kc : YUVCoefficiants) (yS : Nat) : List (Nat × Nat) :=
  (evenPositions img.height).flatMap (fun imageY =>
    (evenPositions img.width).flatMap (fun imageX =>
      yWritesOfBlock img kc yS imageX imageY))

/-- The complete U-plane write trace of `ColorToYUV8`. -/
def uWrites (img : BitmapData) (kc : YUVCoefficiants) (yuvFormat : YUVChromaSubsampling)
    (uS : Nat) : List (Nat × Nat) :=
  (evenPositions img.height).flatMap (fun imageY =>
    (evenPositions img.width).flatMap (fun imageX =>
      uWritesOfBlock img kc yuvFormat uS imageX imageY))

/-- The complete V-plane write trace of `ColorToYUV8`. -/
def vWrites (img : BitmapData) (kc : YUVCoefficiants) (yuvFormat : YUVChromaSubsampling)
    (vS : Nat) : List (Nat × Nat) :=
  (evenPositions img.height).flatMap (fun imageY =>
    (evenPositions img.width).flatMap (fun imageX =>
      vWritesOfBlock img kc yuvFormat vS imageX imageY))

/-- The write trace of `AlphaToY8`. -/
def alphaWrites (img : BitmapData) (yS : Nat) : List (Nat × Nat) :=
  (List.range img.height).flatMap (fun y =>
    (List.range img.width).map (fun x => (x + y * yS, (img.pixelAt x y).a)))

/-!
Concrete inputs for the witnesses.
-/

/-- A fixed sample pixel. -/
def samplePixel : ColorBgra := { b := 10, g := 20, r := 30, a := 40 }

/-- A 3x3 constant raster (odd width and height). -/
def sampleImage3x3 : BitmapData :=
  { width := 3, height := 3, stride := 12, scan0 := fun _ => samplePixel }

/-- A 1x1 constant raster. -/
def sampleImage1x1 : BitmapData :=
  { width := 1, height := 1, stride := 4, scan0 := fun _ => samplePixel }

/-- A 1x1 raster identical to `sampleImage1x1` except in the alpha byte. -/
def sampleImage1x1Alpha : BitmapData :=
  { width := 1, height := 1, stride := 4
    scan0 := fun _ => { b := 10, g := 20, r := 30, a := 200 } }

/-- A 1x1 raster identical to `sampleImage1x1` except in the color bytes. -/
def sampleImage1x1Color : BitmapData :=
  { width := 1, height := 1, stride := 4
    scan0 := fun _ => { b := 99, g := 98, r := 97, a := 40 } }

/-- Sample BT.601-like coefficients. -/
def sampleCoefficiants : YUVCoefficiants := { kr := 299/1000, kg := 587/1000, kb := 114/1000 }

/-- Three uninitialized planes. -/
def emptyPlanes : YUVPlanes :=
  { yPlane := freshPlane, uPlane := freshPlane, vPlane := freshPlane }

/-- Encode options requesting 4:2:0. -/
def sampleOptions420 : EncoderOptions := { yuvFormat := YUVChromaSubsampling.Subsampling420 }

/-- Encode options carrying an out-of-range subsampling enumerant. -/
def sampleOptionsBad : EncoderOptions := { yuvFormat := YUVChromaSubsampling.Other 99 }

/-- A progress context whose callback always cancels. -/
def cancelContext : ProgressContext :=
  { progressDone := 0, progressTotal := 2, progressCallback := fun _ _ => false }

/-- A progress context whose callback always continues. -/
def okContext : ProgressContext :=
  { progressDone := 0, progressTotal := 2, progressCallback := fun _ _ => true }

/-!
Infrastructure lemmas: byte stores and write traces.
-/

theorem applyWrites_nil (p : Plane) : applyWrites p [] = p := rfl

theorem applyWrites_append (p : Plane) (l1 l2 : List (Nat × Nat)) :
    applyWrites p (l1 ++ l2) = applyWrites (applyWrites p l1) l2 := by
  unfold applyWrites
  exact List.foldl_append _ _ _ _

theorem applyWrites_cons (p : Plane) (w : Nat × Nat) (ws : List (Nat × Nat)) :
    applyWrites p (w :: ws) = applyWrites (planeWrite p w.1 w.2) ws := rfl

theorem applyWrites_singleton (p : Plane) (w : Nat × Nat) :
    applyWrites p [w] = planeWrite p w.1 w.2 := rfl

theorem planeWrite_same (p : Plane) (addr val : Nat) :
    planeWrite p addr val addr = some val := by
  unfold planeWrite
  simp

theorem planeWrite_other (p : Plane) (addr val a : Nat) (h : a ≠ addr) :
    planeWrite p addr val a = p a := by
  unfold planeWrite
  simp [h]

/-- A byte no store of the trace touches keeps its previous content. -/
theorem applyWrites_eq_of_forall_ne (ws : List (Nat × Nat)) (p : Plane) (a : Nat)
    (h : ∀ w ∈ ws, w.1 ≠ a) : applyWrites p ws a = p a := by
  induction ws generalizing p with
  | nil => rfl
  | cons w ws ih =>
    rw [applyWrites_cons, ih _ (fun w' hw' => h w' (List.mem_cons_of_mem _ hw'))]
    exact planeWrite_other _ _ _ _ (fun hh => h w (List.mem_cons_self _ _) hh.symm)

/-- If a trace stores `v` at `a` and every store to `a` in it stores `v`,
the final content at `a` is `v`. -/
theorem applyWrites_eq_of_mem (ws : List (Nat × Nat)) (p : Plane) (a v : Nat)
    (hmem : (a, v) ∈ ws) (hval : ∀ w ∈ ws, w.1 = a → w.2 = v) :
    applyWrites p ws a = some v := by
  induction ws using List.reverseRecOn with
  | nil => cases hmem
  | append_singleton l w ih =>
    rw [applyWrites_append, applyWrites_singleton]
    by_cases h : a = w.1
    · have hv : w.2 = v :=
        hval w (List.mem_append_right _ (List.mem_singleton.mpr rfl)) h.symm
      rw [← hv, h, planeWrite_same]
    · rw [planeWrite_other _ _ _ _ h]
      rcases List.mem_append.mp hmem with h1 | h2
      · exact ih h1 (fun w' hw' => hval w' (List.mem_append_left _ hw'))
      · exact absurd (congrArg Prod.fst (List.mem_singleton.mp h2)) h

/-- A left fold whose step acts on the projected plane as a write trace acts
as the concatenated trace. -/
theorem foldl_proj {α σ : Type*} (f : α → σ → σ) (proj : σ → Plane)
    (tr : α → List (Nat × Nat))
    (h : ∀ a st, proj (f a st) = applyWrites (proj st) (tr a)) (l : List α) (st : σ) :
    proj (l.foldl (fun s a => f a s) st) = applyWrites (proj st) (l.flatMap tr) := by
  induction l generalizing st with
  | nil => rfl
  | cons a l ih =>
    rw [List.foldl_cons, ih, h, List.flatMap_cons, applyWrites_append]

/-- A left fold whose step leaves the projected plane unchanged. -/
theorem foldl_proj_const {α σ : Type*} (f : α → σ → σ) (proj : σ → Plane)
    (h : ∀ a st, proj (f a st) = proj st) (l : List α) (st : σ) :
    proj (l.foldl (fun s a => f a s) st) = proj st := by
  induction l generalizing st with
  | nil => rfl
  | cons a l ih => rw [List.foldl_cons, ih, h]

theorem flatMap_singleton_eq_map {α β : Type*} (l : List α) (f : α → β) :
    l.flatMap (fun a => [f a]) = l.map f := by
  induction l with
  | nil => rfl
  | cons a l ih => rw [List.flatMap_cons, ih]; rfl

/-!
Plane-by-plane characterization of the conversion loops by their write
traces.
-/

theorem writePixel_yPlane (img : BitmapData) (kc : YUVCoefficiants)
    (fmt : YUVChromaSubsampling) (yS uS vS iX iY bX bY : Nat) (st : YUVPlanes) :
    (writePixel img kc fmt yS uS vS iX iY bX bY st).yPlane =
      planeWrite st.yPlane ((iX + bX) + (iY + bY) * yS)
        (yuvToUNorm YuvChannel.Y (rgbToYuv kc (img.pixelAt (iX + bX) (iY + bY))).y) := by
  unfold writePixel
  by_cases h : fmt = YUVChromaSubsampling.Subsampling444 <;> simp [h]

theorem writePixel_uPlane (img : BitmapData) (kc : YUVCoefficiants)
    (fmt : YUVChromaSubsampling) (yS uS vS iX iY bX bY : Nat) (st : YUVPlanes) :
    (writePixel img kc fmt yS uS vS iX iY bX bY st).uPlane =
      (if fmt = YUVChromaSubsampling.Subsampling444 then
        planeWrite st.uPlane ((iX + bX) + (iY + bY) * uS)
          (yuvToUNorm YuvChannel.U (rgbToYuv kc (img.pixelAt (iX + bX) (iY + bY))).u)
      else st.uPlane) := by
  unfold writePixel
  by_cases h : fmt = YUVChromaSubsampling.Subsampling444 <;> simp [h]

theorem writePixel_vPlane (img : BitmapData) (kc : YUVCoefficiants)
    (fmt : YUVChromaSubsampling) (yS uS vS iX iY bX bY : Nat) (st : YUVPlanes) :
    (writePixel img kc fmt yS uS vS iX iY bX bY st).vPlane =
      (if fmt = YUVChromaSubsampling.Subsampling444 then
        planeWrite st.vPlane ((iX + bX) + (iY + bY) * vS)
          (yuvToUNorm YuvChannel.V (rgbToYuv kc (img.pixelAt (iX + bX) (iY + bY))).v)
      else st.vPlane) := by
  unfold writePixel
  by_cases h : fmt = YUVChromaSubsampling.Subsampling444 <;> simp [h]

/-- Mapping an entry function over the block's pixels, written as a flat map
over the loop counters. -/
theorem pixelsOfBlock_map {β : Type*} (img : BitmapData) (iX iY : Nat)
    (f : Nat × Nat → β) :
    (pixelsOfBlock img iX iY).map f =
      (List.range (blockDim img.height iY)).flatMap (fun bY =>
        (List.range (blockDim img.width iX)).map (fun bX => f (iX + bX, iY + bY))) := by
  rw [pixelsOfBlock, List.map_flatMap]
  congr 1
  funext bY
  rw [List.map_map]
  rfl

theorem pixRow_yPlane (img : BitmapData) (kc : YUVCoefficiants)
    (fmt : YUVChromaSubsampling) (yS uS vS iX iY bY n : Nat) (st : YUVPlanes) :
    ((List.range n).foldl
        (fun t bX => writePixel img kc fmt yS uS vS iX iY bX bY t) st).yPlane =
      applyWrites st.yPlane ((List.range n).map (fun bX =>
        ((iX + bX) + (iY + bY) * yS,
         yuvToUNorm YuvChannel.Y (rgbToYuv kc (img.pixelAt (iX + bX) (iY + bY))).y))) := by
  rw [← flatMap_singleton_eq_map]
  exact foldl_proj _ YUVPlanes.yPlane _
    (fun bX s => by rw [writePixel_yPlane]; rfl) _ st

theorem pixBlock_yPlane (img : BitmapData) (kc : YUVCoefficiants)
    (fmt : YUVChromaSubsampling) (yS uS vS iX iY : Nat) (st : YUVPlanes) :
    (blockPixelLoop img kc fmt yS uS vS iX iY st).yPlane =
      applyWrites st.yPlane (yWritesOfBlock img kc yS iX iY) := by
  unfold blockPixelLoop
  rw [foldl_proj _ YUVPlanes.yPlane
    (fun bY => (List.range (blockDim img.width iX)).map (fun bX =>
      ((iX + bX) + (iY + bY) * yS,
       yuvToUNorm YuvChannel.Y (rgbToYuv kc (img.pixelAt (iX + bX) (iY + bY))).y)))
    (fun bY s => pixRow_yPlane img kc fmt yS uS vS iX iY bY _ s)]
  rw [yWritesOfBlock, pixelsOfBlock_map]

theorem pixRow_uPlane_444 (img : BitmapData) (kc : YUVCoefficiants)
    (yS uS vS iX iY bY n : Nat) (st : YUVPlanes) :
    ((List.range n).foldl
        (fun t bX => writePixel img kc YUVChromaSubsampling.Subsampling444
          yS uS vS iX iY bX bY t) st).uPlane =
      applyWrites st.uPlane ((List.range n).map (fun bX =>
        ((iX + bX) + (iY + bY) * uS,
         yuvToUNorm YuvChannel.U (rgbToYuv kc (img.pixelAt (iX + bX) (iY + bY))).u))) := by
  rw [← flatMap_singleton_eq_map]
  refine foldl_proj _ YUVPlanes.uPlane _ (fun bX s => ?_) _ st
  rw [writePixel_uPlane, if_pos rfl]
  rfl

theorem pixRow_vPlane_444 (img : BitmapData) (kc : YUVCoefficiants)
    (yS uS vS iX iY bY n : Nat) (st : YUVPlanes) :
    ((List.range n).foldl
        (fun t bX => writePixel img kc YUVChromaSubsampling.Subsampling444
          yS uS vS iX iY bX bY t) st).vPlane =
      applyWrites st.vPlane ((List.range n).map (fun bX =>
        ((iX + bX) + (iY + bY) * vS,
         yuvToUNorm YuvChannel.V (rgbToYuv kc (img.pixelAt (iX + bX) (iY + bY))).v))) := by
  rw [← flatMap_singleton_eq_map]
  refine foldl_proj _ YUVPlanes.vPlane _ (fun bX s => ?_) _ st
  rw [writePixel_vPlane, if_pos rfl]
  rfl

theorem pixBlock_uPlane_444 (img : BitmapData) (kc : YUVCoefficiants)
    (yS uS vS iX iY : Nat) (st : YUVPlanes) :
    (blockPixelLoop img kc YUVChromaSubsampling.Subsampling444
        yS uS vS iX iY st).uPlane =
      applyWrites st.uPlane ((pixelsOfBlock img iX iY).map (fun q =>
        (q.1 + q.2 * uS, yuvToUNorm YuvChannel.U (rgbToYuv kc (img.pixelAt q.1 q.2)).u))) := by
  unfold blockPixelLoop
  rw [foldl_proj _ YUVPlanes.uPlane
    (fun bY => (List.range (blockDim img.width iX)).map (fun bX =>
      ((iX + bX) + (iY + bY) * uS,
       yuvToUNorm YuvChannel.U (rgbToYuv kc (img.pixelAt (iX + bX) (iY + bY))).u)))
    (fun bY s => pixRow_uPlane_444 img kc yS uS vS iX iY bY _ s)]
  rw [pixelsOfBlock_map]

theorem pixBlock_vPlane_444 (img : BitmapData) (kc : YUVCoefficiants)
    (yS uS vS iX iY : Nat) (st : YUVPlanes) :
    (blockPixelLoop img kc YUVChromaSubsampling.Subsampling444
        yS uS vS iX iY st).vPlane =
      applyWrites st.vPlane ((pixelsOfBlock img iX iY).map (fun q =>
        (q.1 + q.2 * vS, yuvToUNorm YuvChannel.V (rgbToYuv kc (img.pixelAt q.1 q.2)).v))) := by
  unfold blockPixelLoop
  rw [foldl_proj _ YUVPlanes.vPlane
    (fun bY => (List.range (blockDim img.width iX)).map (fun bX =>
      ((iX + bX) + (iY + bY) * vS,
       yuvToUNorm YuvChannel.V (rgbToYuv kc (img.pixelAt (iX + bX) (iY + bY))).v)))
    (fun bY s => pixRow_vPlane_444 img kc yS uS vS iX iY bY _ s)]
  rw [pixelsOfBlock_map]

theorem pixBlock_uPlane_not444 (img : BitmapData) (kc : YUVCoefficiants)
    (fmt : YUVChromaSubsampling) (yS uS vS iX iY : Nat) (st : YUVPlanes)
    (h : fmt ≠ YUVChromaSubsampling.Subsampling444) :
    (blockPixelLoop img kc fmt yS uS vS iX iY st).uPlane = st.uPlane := by
  unfold blockPixelLoop
  refine foldl_proj_const _ YUVPlanes.uPlane (fun bY s => ?_) _ st
  refine foldl_proj_const _ YUVPlanes.uPlane (fun bX s2 => ?_) _ s
  rw [writePixel_uPlane]
  simp [h]

theorem pixBlock_vPlane_not444 (img : BitmapData) (kc : YUVCoefficiants)
    (fmt : YUVChromaSubsampling) (yS uS vS iX iY : Nat) (st : YUVPlanes)
    (h : fmt ≠ YUVChromaSubsampling.Subsampling444) :
    (blockPixelLoop img kc fmt yS uS vS iX iY st).vPlane = st.vPlane := by
  unfold blockPixelLoop
  refine foldl_proj_const _ YUVPlanes.vPlane (fun bY s => ?_) _ st
  refine foldl_proj_const _ YUVPlanes.vPlane (fun bX s2 => ?_) _ s
  rw [writePixel_vPlane]
  simp [h]

theorem chroma422Loop_yPlane (img : BitmapData) (kc : YUVCoefficiants)
    (uS vS iX iY : Nat) (st : YUVPlanes) :
    (chroma422Loop img kc uS vS iX iY st).yPlane = st.yPlane := by
  unfold chroma422Loop
  refine foldl_proj_const _ YUVPlanes.yPlane (fun bY s => ?_) _ st
  rfl

theorem chroma422Loop_uPlane (img : BitmapData) (kc : YUVCoefficiants)
    (uS vS iX iY : Nat) (st : YUVPlanes) :
    (chroma422Loop img kc uS vS iX iY st).uPlane =
      applyWrites st.uPlane ((List.range (blockDim img.height iY)).map (fun bY =>
        (iX / 2 + (iY + bY) * uS,
         yuvToUNorm YuvChannel.U
           (rowSumU img kc iX (iY + bY) (blockDim img.width iX) /
             ((blockDim img.width iX : Nat) : ℚ))))) := by
  unfold chroma422Loop
  rw [← flatMap_singleton_eq_map]
  exact foldl_proj _ YUVPlanes.uPlane _ (fun bY s => rfl) _ st

theorem chroma422Loop_vPlane (img : BitmapData) (kc : YUVCoefficiants)
    (uS vS iX iY : Nat) (st : YUVPlanes) :
    (chroma422Loop img kc uS vS iX iY st).vPlane =
      applyWrites st.vPlane ((List.range (blockDim img.height iY)).map (fun bY =>
        (iX / 2 + (iY + bY) * vS,
         yuvToUNorm YuvChannel.V
           (rowSumV img kc iX (iY + bY) (blockDim img.width iX) /
             ((blockDim img.width iX : Nat) : ℚ))))) := by
  unfold chroma422Loop
  rw [← flatMap_singleton_eq_map]
  exact foldl_proj _ YUVPlanes.vPlane _ (fun bY s => rfl) _ st

theorem processBlock_yPlane (img : BitmapData) (kc : YUVCoefficiants)
    (fmt : YUVChromaSubsampling) (yS uS vS iX iY : Nat) (st : YUVPlanes) :
    (processBlock img kc fmt yS uS vS iX iY st).yPlane =
      applyWrites st.yPlane (yWritesOfBlock img kc yS iX iY) := by
  simp only [processBlock]
  by_cases h420 : fmt = YUVChromaSubsampling.Subsampling420
  · rw [if_pos h420]
    exact pixBlock_yPlane img kc fmt yS uS vS iX iY st
  · rw [if_neg h420]
    by_cases h422 : fmt = YUVChromaSubsampling.Subsampling422
    · rw [if_pos h422, chroma422Loop_yPlane]
      exact pixBlock_yPlane img kc fmt yS uS vS iX iY st
    · rw [if_neg h422]
      exact pixBlock_yPlane img kc fmt yS uS vS iX iY st

theorem processBlock_uPlane (img : BitmapData) (kc : YUVCoefficiants)
    (fmt : YUVChromaSubsampling) (yS uS vS iX iY : Nat) (st : YUVPlanes) :
    (processBlock img kc fmt yS uS vS iX iY st).uPlane =
      applyWrites st.uPlane (uWritesOfBlock img kc fmt uS iX iY) := by
  simp only [processBlock, uWritesOfBlock]
  by_cases h444 : fmt = YUVChromaSubsampling.Subsampling444
  · subst h444
    rw [if_neg (by simp), if_neg (by simp), if_pos rfl]
    rw [pixBlock_uPlane_444 img kc yS uS vS iX iY st]
  · rw [if_neg h444]
    by_cases h420 : fmt = YUVChromaSubsampling.Subsampling420
    · subst h420
      rw [if_pos rfl, if_pos rfl]
      show planeWrite (blockPixelLoop img kc YUVChromaSubsampling.Subsampling420
          yS uS vS iX iY st).uPlane _ _ = _
      rw [pixBlock_uPlane_not444 img kc _ yS uS vS iX iY st (by simp),
        applyWrites_singleton]
    · rw [if_neg h420, if_neg h420]
      by_cases h422 : fmt = YUVChromaSubsampling.Subsampling422
      · subst h422
        rw [if_pos rfl, if_pos rfl, chroma422Loop_uPlane,
          pixBlock_uPlane_not444 img kc _ yS uS vS iX iY st (by simp)]
      · rw [if_neg h422, if_neg h422, applyWrites_nil]
        exact pixBlock_uPlane_not444 img kc fmt yS uS vS iX iY st h444

theorem processBlock_vPlane (img : BitmapData) (kc : YUVCoefficiants)
    (fmt : YUVChromaSubsampling) (yS uS vS iX iY : Nat) (st : YUVPlanes) :
    (processBlock img kc fmt yS uS vS iX iY st).vPlane =
      applyWrites st.vPlane (vWritesOfBlock img kc fmt vS iX iY) := by
  simp only [processBlock, vWritesOfBlock]
  by_cases h444 : fmt = YUVChromaSubsampling.Subsampling444
  · subst h444
    rw [if_neg (by simp), if_neg (by simp), if_pos rfl]
    rw [pixBlock_vPlane_444 img kc yS uS vS iX iY st]
  · rw [if_neg h444]
    by_cases h420 : fmt = YUVChromaSubsampling.Subsampling420
    · subst h420
      rw [if_pos rfl, if_pos rfl]
      show planeWrite (blockPixelLoop img kc YUVChromaSubsampling.Subsampling420
          yS uS vS iX iY st).vPlane _ _ = _
      rw [pixBlock_vPlane_not444 img kc _ yS uS vS iX iY st (by simp),
        applyWrites_singleton]
    · rw [if_neg h420, if_neg h420]
      by_cases h422 : fmt = YUVChromaSubsampling.Subsampling422
      · subst h422
        rw [if_pos rfl, if_pos rfl, chroma422Loop_vPlane,
          pixBlock_vPlane_not444 img kc _ yS uS vS iX iY st (by simp)]
      · rw [if_neg h422, if_neg h422, applyWrites_nil]
        exact pixBlock_vPlane_not444 img kc fmt yS uS vS iX iY st h444

theorem ColorToYUV8_yPlane (img : BitmapData) (kc : YUVCoefficiants)
    (fmt : YUVChromaSubsampling) (yS uS vS : Nat) (st : YUVPlanes) :
    (ColorToYUV8 img kc fmt yS uS vS st).yPlane =
      applyWrites st.yPlane (yWrites img kc yS) := by
  unfold ColorToYUV8 yWrites
  refine foldl_proj _ YUVPlanes.yPlane _ (fun iY s => ?_) _ st
  refine foldl_proj _ YUVPlanes.yPlane _ (fun iX s2 => ?_) _ s
  exact processBlock_yPlane img kc fmt yS uS vS iX iY s2

theorem ColorToYUV8_uPlane (img : BitmapData) (kc : YUVCoefficiants)
    (fmt : YUVChromaSubsampling) (yS uS vS : Nat) (st : YUVPlanes) :
    (ColorToYUV8 img kc fmt yS uS vS st).uPlane =
      applyWrites st.uPlane (uWrites img kc fmt uS) := by
  unfold ColorToYUV8 uWrites
  refine foldl_proj _ YUVPlanes.uPlane _ (fun iY s => ?_) _ st
  refine foldl_proj _ YUVPlanes.uPlane _ (fun iX s2 => ?_) _ s
  exact processBlock_uPlane img kc fmt yS uS vS iX iY s2

theorem ColorToYUV8_vPlane (img : BitmapData) (kc : YUVCoefficiants)
    (fmt : YUVChromaSubsampling) (yS uS vS : Nat) (st : YUVPlanes) :
    (ColorToYUV8 img kc fmt yS uS vS st).vPlane =
      applyWrites st.vPlane (vWrites img kc fmt vS) := by
  unfold ColorToYUV8 vWrites
  refine foldl_proj _ YUVPlanes.vPlane _ (fun iY s => ?_) _ st
  refine foldl_proj _ YUVPlanes.vPlane _ (fun iX s2 => ?_) _ s
  exact processBlock_vPlane img kc fmt yS uS vS iX iY s2

theorem AlphaToY8_eq (img : BitmapData) (yS : Nat) (p : Plane) :
    AlphaToY8 img yS p = applyWrites p (alphaWrites img yS) := by
  unfold AlphaToY8 alphaWrites
  refine foldl_proj _ id _ (fun y q => ?_) _ p
  rw [← flatMap_singleton_eq_map]
  refine foldl_proj _ id _ (fun x q2 => ?_) _ q
  rfl

/-!
Arithmetic and list helper lemmas.
-/

theorem mem_evenPositions (limit p : Nat) (h : p ∈ evenPositions limit) :
    p < limit ∧ p % 2 = 0 := by
  unfold evenPositions at h
  simp only [List.mem_map, List.mem_range] at h
  obtain ⟨i, hi, rfl⟩ := h
  omega

theorem two_mul_mem_evenPositions (limit i : Nat) (h : i < (limit + 1) / 2) :
    2 * i ∈ evenPositions limit := by
  unfold evenPositions
  simp only [List.mem_map, List.mem_range]
  exact ⟨i, h, rfl⟩

theorem blockDim_bound (limit pos bI : Nat) (hpos : pos < limit)
    (hbI : bI < blockDim limit pos) : pos + bI < limit := by
  unfold blockDim at hbI
  split at hbI <;> omega

theorem blockDim_eq_min (limit pos : Nat) (hpos : pos < limit) :
    blockDim limit pos = min 2 (limit - pos) := by
  unfold blockDim
  split <;> omega

theorem addr_inj (s x y x' y' : Nat) (hx : x < s) (hx' : x' < s)
    (h : x' + y' * s = x + y * s) : x' = x ∧ y' = y := by
  have h1 : (x' + y' * s) % s = (x + y * s) % s := by rw [h]
  rw [Nat.add_mul_mod_self_right, Nat.add_mul_mod_self_right,
    Nat.mod_eq_of_lt hx', Nat.mod_eq_of_lt hx] at h1
  subst h1
  have hs : 0 < s := Nat.lt_of_le_of_lt (Nat.zero_le _) hx
  have h2 : y' * s = y * s := by omega
  exact ⟨rfl, Nat.eq_of_mul_eq_mul_right hs h2⟩

theorem foldl_congr_mem {α β : Type*} (l : List α) (f g : β → α → β) (s : β)
    (h : ∀ a ∈ l, ∀ b, f b a = g b a) : l.foldl f s = l.foldl g s := by
  induction l generalizing s with
  | nil => rfl
  | cons a l ih =>
    rw [List.foldl_cons, List.foldl_cons, h a (List.mem_cons_self _ _)]
    exact ih _ (fun a' ha' b => h a' (List.mem_cons_of_mem _ ha') b)

theorem memsetFold_miss (n uS a : Nat) (p : Plane)
    (h : ∀ y, y < n → ¬(y * uS ≤ a ∧ a < y * uS + uS)) :
    ((List.range n).foldl (fun q y => memsetRow q (y * uS) uS) p) a = p a := by
  induction n with
  | zero => rfl
  | succ n ih =>
    rw [List.range_succ, List.foldl_append]
    show memsetRow ((List.range n).foldl (fun q y => memsetRow q (y * uS) uS) p)
      (n * uS) uS a = p a
    unfold memsetRow
    rw [if_neg (h n (Nat.lt_succ_self n))]
    exact ih (fun y hy => h y (Nat.lt_succ_of_lt hy))

theorem memsetFold_hit (n uS a y : Nat) (p : Plane)
    (hy : y < n) (h1 : y * uS ≤ a) (h2 : a < y * uS + uS) :
    ((List.range n).foldl (fun q y => memsetRow q (y * uS) uS) p) a = some 0 := by
  induction n with
  | zero => omega
  | succ n ih =>
    rw [List.range_succ, List.foldl_append]
    show memsetRow ((List.range n).foldl (fun q y => memsetRow q (y * uS) uS) p)
      (n * uS) uS a = some 0
    unfold memsetRow
    by_cases hc : n * uS ≤ a ∧ a < n * uS + uS
    · rw [if_pos hc]
    · rw [if_neg hc]
      refine ih ?_
      rcases Nat.lt_succ_iff_lt_or_eq.mp hy with hlt | heq
      · exact hlt
      · subst heq
        exact absurd ⟨h1, h2⟩ hc

theorem blockDim_le_two (limit pos : Nat) :
    1 ≤ blockDim limit pos ∧ blockDim limit pos ≤ 2 := by
  unfold blockDim
  split <;> omega

theorem uWritesOfBlock_420 (img : BitmapData) (kc : YUVCoefficiants) (uS iX iY : Nat) :
    uWritesOfBlock img kc YUVChromaSubsampling.Subsampling420 uS iX iY =
      [(iX / 2 + iY / 2 * uS,
        yuvToUNorm YuvChannel.U
          (blockSumU img kc iX iY (blockDim img.width iX) (blockDim img.height iY) /
            ((blockDim img.width iX * blockDim img.height iY : Nat) : ℚ)))] := by
  unfold uWritesOfBlock
  rw [if_neg (by decide), if_pos rfl]

theorem vWritesOfBlock_420 (img : BitmapData) (kc : YUVCoefficiants) (vS iX iY : Nat) :
    vWritesOfBlock img kc YUVChromaSubsampling.Subsampling420 vS iX iY =
      [(iX / 2 + iY / 2 * vS,
        yuvToUNorm YuvChannel.V
          (blockSumV img kc iX iY (blockDim img.width iX) (blockDim img.height iY) /
            ((blockDim img.width iX * blockDim img.height iY : Nat) : ℚ)))] := by
  unfold vWritesOfBlock
  rw [if_neg (by decide), if_pos rfl]

theorem uWritesOfBlock_422 (img : BitmapData) (kc : YUVCoefficiants) (uS iX iY : Nat) :
    uWritesOfBlock img kc YUVChromaSubsampling.Subsampling422 uS iX iY =
      (List.range (blockDim img.height iY)).map (fun bY =>
        (iX / 2 + (iY + bY) * uS,
          yuvToUNorm YuvChannel.U
            (rowSumU img kc iX (iY + bY) (blockDim img.width iX) /
              ((blockDim img.width iX : Nat) : ℚ)))) := by
  unfold uWritesOfBlock
  rw [if_neg (by decide), if_neg (by decide), if_pos rfl]

theorem vWritesOfBlock_422 (img : BitmapData) (kc : YUVCoefficiants) (vS iX iY : Nat) :
    vWritesOfBlock img kc YUVChromaSubsampling.Subsampling422 vS iX iY =
      (List.range (blockDim img.height iY)).map (fun bY =>
        (iX / 2 + (iY + bY) * vS,
          yuvToUNorm YuvChannel.V
            (rowSumV img kc iX (iY + bY) (blockDim img.width iX) /
              ((blockDim img.width iX : Nat) : ℚ)))) := by
  unfold vWritesOfBlock
  rw [if_neg (by decide), if_neg (by decide), if_pos rfl]

/-- The final 4:2:0 U sample of the block with chroma coordinate
`(cx, cy)`: the average of the block's actual samples, quantized. -/
theorem chroma420_u_value (img : BitmapData) (kc : YUVCoefficiants)
    (yS uS vS : Nat) (st : YUVPlanes) (hu : (img.width + 1) / 2 ≤ uS)
    (cx cy : Nat) (hcx : cx < (img.width + 1) / 2) (hcy : cy < (img.height + 1) / 2) :
    (ColorToYUV8 img kc YUVChromaSubsampling.Subsampling420 yS uS vS st).uPlane
        (cx + cy * uS) =
      some (yuvToUNorm YuvChannel.U
        (blockSumU img kc (2 * cx) (2 * cy)
            (blockDim img.width (2 * cx)) (blockDim img.height (2 * cy)) /
          ((blockDim img.width (2 * cx) * blockDim img.height (2 * cy) : Nat) : ℚ))) := by
  rw [ColorToYUV8_uPlane]
  apply applyWrites_eq_of_mem
  · unfold uWrites evenPositions
    simp only [uWritesOfBlock_420, List.mem_flatMap, List.mem_map, List.mem_range,
      List.mem_singleton]
    refine ⟨2 * cy, ⟨cy, hcy, rfl⟩, 2 * cx, ⟨cx, hcx, rfl⟩, ?_⟩
    have e1 : 2 * cx / 2 = cx := by omega
    have e2 : 2 * cy / 2 = cy := by omega
    rw [e1, e2]
  · intro w hw haddr
    unfold uWrites evenPositions at hw
    simp only [uWritesOfBlock_420, List.mem_flatMap, List.mem_map, List.mem_range,
      List.mem_singleton] at hw
    obtain ⟨iY, ⟨j, hj, rfl⟩, iX, ⟨i, hi, rfl⟩, rfl⟩ := hw
    have e1 : 2 * i / 2 = i := by omega
    have e2 : 2 * j / 2 = j := by omega
    simp only [e1, e2] at haddr ⊢
    obtain ⟨hi2, hj2⟩ := addr_inj uS cx cy i j
      (Nat.lt_of_lt_of_le hcx hu) (Nat.lt_of_lt_of_le hi hu) haddr
    subst hi2
    subst hj2
    rfl

/-- The final 4:2:0 V sample of the block with chroma coordinate
`(cx, cy)`. -/
theorem chroma420_v_value (img : BitmapData) (kc : YUVCoefficiants)
    (yS uS vS : Nat) (st : YUVPlanes) (hv : (img.width + 1) / 2 ≤ vS)
    (cx cy : Nat) (hcx : cx < (img.width + 1) / 2) (hcy : cy < (img.height + 1) / 2) :
    (ColorToYUV8 img kc YUVChromaSubsampling.Subsampling420 yS uS vS st).vPlane
        (cx + cy * vS) =
      some (yuvToUNorm YuvChannel.V
        (blockSumV img kc (2 * cx) (2 * cy)
            (blockDim img.width (2 * cx)) (blockDim img.height (2 * cy)) /
          ((blockDim img.width (2 * cx) * blockDim img.height (2 * cy) : Nat) : ℚ))) := by
  rw [ColorToYUV8_vPlane]
  apply applyWrites_eq_of_mem
  · unfold vWrites evenPositions
    simp only [vWritesOfBlock_420, List.mem_flatMap, List.mem_map, List.mem_range,
      List.mem_singleton]
    refine ⟨2 * cy, ⟨cy, hcy, rfl⟩, 2 * cx, ⟨cx, hcx, rfl⟩, ?_⟩
    have e1 : 2 * cx / 2 = cx := by omega
    have e2 : 2 * cy / 2 = cy := by omega
    rw [e1, e2]
  · intro w hw haddr
    unfold vWrites evenPositions at hw
    simp only [vWritesOfBlock_420, List.mem_flatMap, List.mem_map, List.mem_range,
      List.mem_singleton] at hw
    obtain ⟨iY, ⟨j, hj, rfl⟩, iX, ⟨i, hi, rfl⟩, rfl⟩ := hw
    have e1 : 2 * i / 2 = i := by omega
    have e2 : 2 * j / 2 = j := by omega
    simp only [e1, e2] at haddr ⊢
    obtain ⟨hi2, hj2⟩ := addr_inj vS cx cy i j
      (Nat.lt_of_lt_of_le hcx hv) (Nat.lt_of_lt_of_le hi hv) haddr
    subst hi2
    subst hj2
    rfl

/-- The final 4:2:2 U sample at chroma column `cx` and row `y`: the average
of the actual samples of that row of the block, quantized. -/
theorem chroma422_u_value (img : BitmapData) (kc : YUVCoefficiants)
    (yS uS vS : Nat) (st : YUVPlanes) (hu : (img.width + 1) / 2 ≤ uS)
    (cx : Nat) (hcx : cx < (img.width + 1) / 2) (y : Nat) (hy : y < img.height) :
    (ColorToYUV8 img kc YUVChromaSubsampling.Subsampling422 yS uS vS st).uPlane
        (cx + y * uS) =
      some (yuvToUNorm YuvChannel.U
        (rowSumU img kc (2 * cx) y (blockDim img.width (2 * cx)) /
          ((blockDim img.width (2 * cx) : Nat) : ℚ))) := by
  rw [ColorToYUV8_uPlane]
  apply applyWrites_eq_of_mem
  · unfold uWrites evenPositions
    simp only [uWritesOfBlock_422, List.mem_flatMap, List.mem_map, List.mem_range]
    refine ⟨2 * (y / 2), ⟨y / 2, by omega, rfl⟩, 2 * cx, ⟨cx, hcx, rfl⟩, y % 2, ?_, ?_⟩
    · unfold blockDim
      split <;> omega
    · have e1 : 2 * cx / 2 = cx := by omega
      have e2 : 2 * (y / 2) + y % 2 = y := by omega
      rw [e1, e2]
  · intro w hw haddr
    unfold uWrites evenPositions at hw
    simp only [uWritesOfBlock_422, List.mem_flatMap, List.mem_map, List.mem_range] at hw
    obtain ⟨iY, ⟨j, hj, rfl⟩, iX, ⟨i, hi, rfl⟩, bY, hbY, rfl⟩ := hw
    have e1 : 2 * i / 2 = i := by omega
    simp only [e1] at haddr ⊢
    obtain ⟨hi2, hr⟩ := addr_inj uS cx y i (2 * j + bY)
      (Nat.lt_of_lt_of_le hcx hu) (Nat.lt_of_lt_of_le hi hu) haddr
    subst hi2
    rw [hr]

/-- The final 4:2:2 V sample at chroma column `cx` and row `y`. -/
theorem chroma422_v_value (img : BitmapData) (kc : YUVCoefficiants)
    (yS uS vS : Nat) (st : YUVPlanes) (hv : (img.width + 1) / 2 ≤ vS)
    (cx : Nat) (hcx : cx < (img.width + 1) / 2) (y : Nat) (hy : y < img.height) :
    (ColorToYUV8 img kc YUVChromaSubsampling.Subsampling422 yS uS vS st).vPlane
        (cx + y * vS) =
      some (yuvToUNorm YuvChannel.V
        (rowSumV img kc (2 * cx) y (blockDim img.width (2 * cx)) /
          ((blockDim img.width (2 * cx) : Nat) : ℚ))) := by
  rw [ColorToYUV8_vPlane]
  apply applyWrites_eq_of_mem
  · unfold vWrites evenPositions
    simp only [vWritesOfBlock_422, List.mem_flatMap, List.mem_map, List.mem_range]
    refine ⟨2 * (y / 2), ⟨y / 2, by omega, rfl⟩, 2 * cx, ⟨cx, hcx, rfl⟩, y % 2, ?_, ?_⟩
    · unfold blockDim
      split <;> omega
    · have e1 : 2 * cx / 2 = cx := by omega
      have e2 : 2 * (y / 2) + y % 2 = y := by omega
      rw [e1, e2]
  · intro w hw haddr
    unfold vWrites evenPositions at hw
    simp only [vWritesOfBlock_422, List.mem_flatMap, List.mem_map, List.mem_range] at hw
    obtain ⟨iY, ⟨j, hj, rfl⟩, iX, ⟨i, hi, rfl⟩, bY, hbY, rfl⟩ := hw
    have e1 : 2 * i / 2 = i := by omega
    simp only [e1] at haddr ⊢
    obtain ⟨hi2, hr⟩ := addr_inj vS cx y i (2 * j + bY)
      (Nat.lt_of_lt_of_le hcx hv) (Nat.lt_of_lt_of_le hi hv) haddr
    subst hi2
    rw [hr]

theorem blockSumU_one_one (img : BitmapData) (kc : YUVCoefficiants) (iX iY : Nat) :
    blockSumU img kc iX iY 1 1 = (rgbToYuv kc (img.pixelAt iX iY)).u := by
  unfold blockSumU
  simp [List.range_succ]

theorem blockSumV_one_one (img : BitmapData) (kc : YUVCoefficiants) (iX iY : Nat) :
    blockSumV img kc iX iY 1 1 = (rgbToYuv kc (img.pixelAt iX iY)).v := by
  unfold blockSumV
  simp [List.range_succ]

/-- `rgbToYuv` reads only the blue, green and red bytes of the pixel. -/
theorem rgbToYuv_congr (kc : YUVCoefficiants) (p1 p2 : ColorBgra)
    (hb : p1.b = p2.b) (hg : p1.g = p2.g) (hr : p1.r = p2.r) :
    rgbToYuv kc p1 = rgbToYuv kc p2 := by
  unfold rgbToYuv
  rw [hb, hg, hr]

theorem blockSumU_congr (img1 img2 : BitmapData) (kc : YUVCoefficiants) (iX iY : Nat)
    (hw : img1.width = img2.width) (hh : img1.height = img2.height)
    (hpx : ∀ x y, x < img1.width → y < img1.height →
      (img1.pixelAt x y).b = (img2.pixelAt x y).b ∧
      (img1.pixelAt x y).g = (img2.pixelAt x y).g ∧
      (img1.pixelAt x y).r = (img2.pixelAt x y).r)
    (hx : iX < img1.width) (hy : iY < img1.height) :
    blockSumU img1 kc iX iY (blockDim img1.width iX) (blockDim img1.height iY) =
      blockSumU img2 kc iX iY (blockDim img2.width iX) (blockDim img2.height iY) := by
  rw [← hw, ← hh]
  unfold blockSumU
  apply foldl_congr_mem
  intro bJ hbJ s
  apply foldl_congr_mem
  intro bI hbI t
  obtain ⟨hb, hg, hr⟩ := hpx (iX + bI) (iY + bJ)
    (blockDim_bound _ _ _ hx (List.mem_range.mp hbI))
    (blockDim_bound _ _ _ hy (List.mem_range.mp hbJ))
  rw [rgbToYuv_congr kc _ _ hb hg hr]

theorem blockSumV_congr (img1 img2 : BitmapData) (kc : YUVCoefficiants) (iX iY : Nat)
    (hw : img1.width = img2.width) (hh : img1.height = img2.height)
    (hpx : ∀ x y, x < img1.width → y < img1.height →
      (img1.pixelAt x y).b = (img2.pixelAt x y).b ∧
      (img1.pixelAt x y).g = (img2.pixelAt x y).g ∧
      (img1.pixelAt x y).r = (img2.pixelAt x y).r)
    (hx : iX < img1.width) (hy : iY < img1.height) :
    blockSumV img1 kc iX iY (blockDim img1.width iX) (blockDim img1.height iY) =
      blockSumV img2 kc iX iY (blockDim img2.width iX) (blockDim img2.height iY) := by
  rw [← hw, ← hh]
  unfold blockSumV
  apply foldl_congr_mem
  intro bJ hbJ s
  apply foldl_congr_mem
  intro bI hbI t
  obtain ⟨hb, hg, hr⟩ := hpx (iX + bI) (iY + bJ)
    (blockDim_bound _ _ _ hx (List.mem_range.mp hbI))
    (blockDim_bound _ _ _ hy (List.mem_range.mp hbJ))
  rw [rgbToYuv_congr kc _ _ hb hg hr]

theorem rowSumU_congr (img1 img2 : BitmapData) (kc : YUVCoefficiants) (iX y : Nat)
    (hw : img1.width = img2.width)
    (hpx : ∀ x y, x < img1.width → y < img1.height →
      (img1.pixelAt x y).b = (img2.pixelAt x y).b ∧
      (img1.pixelAt x y).g = (img2.pixelAt x y).g ∧
      (img1.pixelAt x y).r = (img2.pixelAt x y).r)
    (hx : iX < img1.width) (hyy : y < img1.height) :
    rowSumU img1 kc iX y (blockDim img1.width iX) =
      rowSumU img2 kc iX y (blockDim img2.width iX) := by
  rw [← hw]
  unfold rowSumU
  apply foldl_congr_mem
  intro bX hbX s
  obtain ⟨hb, hg, hr⟩ := hpx (iX + bX) y
    (blockDim_bound _ _ _ hx (List.mem_range.mp hbX)) hyy
  rw [rgbToYuv_congr kc _ _ hb hg hr]

theorem rowSumV_congr (img1 img2 : BitmapData) (kc : YUVCoefficiants) (iX y : Nat)
    (hw : img1.width = img2.width)
    (hpx : ∀ x y, x < img1.width → y < img1.height →
      (img1.pixelAt x y).b = (img2.pixelAt x y).b ∧
      (img1.pixelAt x y).g = (img2.pixelAt x y).g ∧
      (img1.pixelAt x y).r = (img2.pixelAt x y).r)
    (hx : iX < img1.width) (hyy : y < img1.height) :
    rowSumV img1 kc iX y (blockDim img1.width iX) =
      rowSumV img2 kc iX y (blockDim img2.width iX) := by
  rw [← hw]
  unfold rowSumV
  apply foldl_congr_mem
  intro bX hbX s
  obtain ⟨hb, hg, hr⟩ := hpx (iX + bX) y
    (blockDim_bound _ _ _ hx (List.mem_range.mp hbX)) hyy
  rw [rgbToYuv_congr kc _ _ hb hg hr]

theorem blockPixelLoop_congr (img1 img2 : BitmapData) (kc : YUVCoefficiants)
    (fmt : YUVChromaSubsampling) (yS uS vS iX iY : Nat)
    (hw : img1.width = img2.width) (hh : img1.height = img2.height)
    (hpx : ∀ x y, x < img1.width → y < img1.height →
      (img1.pixelAt x y).b = (img2.pixelAt x y).b ∧
      (img1.pixelAt x y).g = (img2.pixelAt x y).g ∧
      (img1.pixelAt x y).r = (img2.pixelAt x y).r)
    (hx : iX < img1.width) (hy : iY < img1.height) (st : YUVPlanes) :
    blockPixelLoop img1 kc fmt yS uS vS iX iY st =
      blockPixelLoop img2 kc fmt yS uS vS iX iY st := by
  unfold blockPixelLoop
  rw [← hw, ← hh]
  apply foldl_congr_mem
  intro bY hbY s
  apply foldl_congr_mem
  intro bX hbX t
  obtain ⟨hb, hg, hr⟩ := hpx (iX + bX) (iY + bY)
    (blockDim_bound _ _ _ hx (List.mem_range.mp hbX))
    (blockDim_bound _ _ _ hy (List.mem_range.mp hbY))
  unfold writePixel
  dsimp only
  rw [rgbToYuv_congr kc _ _ hb hg hr]

theorem chroma422Loop_congr (img1 img2 : BitmapData) (kc : YUVCoefficiants)
    (uS vS iX iY : Nat)
    (hw : img1.width = img2.width) (hh : img1.height = img2.height)
    (hpx : ∀ x y, x < img1.width → y < img1.height →
      (img1.pixelAt x y).b = (img2.pixelAt x y).b ∧
      (img1.pixelAt x y).g = (img2.pixelAt x y).g ∧
      (img1.pixelAt x y).r = (img2.pixelAt x y).r)
    (hx : iX < img1.width) (hy : iY < img1.height) (st : YUVPlanes) :
    chroma422Loop img1 kc uS vS iX iY st = chroma422Loop img2 kc uS vS iX iY st := by
  unfold chroma422Loop
  rw [← hh]
  apply foldl_congr_mem
  intro bY hbY s
  have hrow : iY + bY < img1.height :=
    blockDim_bound _ _ _ hy (List.mem_range.mp hbY)
  dsimp only
  rw [rowSumU_congr img1 img2 kc iX (iY + bY) hw hpx hx hrow,
    rowSumV_congr img1 img2 kc iX (iY + bY) hw hpx hx hrow, hw]

theorem processBlock_congr (img1 img2 : BitmapData) (kc : YUVCoefficiants)
    (fmt : YUVChromaSubsampling) (yS uS vS iX iY : Nat)
    (hw : img1.width = img2.width) (hh : img1.height = img2.height)
    (hpx : ∀ x y, x < img1.width → y < img1.height →
      (img1.pixelAt x y).b = (img2.pixelAt x y).b ∧
      (img1.pixelAt x y).g = (img2.pixelAt x y).g ∧
      (img1.pixelAt x y).r = (img2.pixelAt x y).r)
    (hx : iX < img1.width) (hy : iY < img1.height) (st : YUVPlanes) :
    processBlock img1 kc fmt yS uS vS iX iY st =
      processBlock img2 kc fmt yS uS vS iX iY st := by
  simp only [processBlock]
  rw [blockPixelLoop_congr img1 img2 kc fmt yS uS vS iX iY hw hh hpx hx hy st,
    blockSumU_congr img1 img2 kc iX iY hw hh hpx hx hy,
    blockSumV_congr img1 img2 kc iX iY hw hh hpx hx hy,
    chroma422Loop_congr img1 img2 kc uS vS iX iY hw hh hpx hx hy _,
    hw, hh]

/-!
Claim theorems.
-/

/-- Claim C4: under 4:2:0 every chroma block, including the truncated 1x2,
2x1 and 1x1 boundary blocks of odd-sized images, stores the block sum
divided by the actual number of samples present (`blockWidth * blockHeight`
with each factor `min 2 (extent remaining)`) — never by a fixed 4; in
particular for odd width and height the bottom-right 1x1 corner block
stores exactly the single corresponding source chroma value, quantized; and
analogously each 4:2:2 row average divides by the actual row width. -/
theorem chroma_blocks_average_actual_samples (img : BitmapData)
    (kc : YUVCoefficiants) (yS uS vS : Nat) (st : YUVPlanes)
    (hu : (img.width + 1) / 2 ≤ uS) (hv : (img.width + 1) / 2 ≤ vS) :
    (∀ cx cy, cx < (img.width + 1) / 2 → cy < (img.height + 1) / 2 →
      blockDim img.width (2 * cx) = min 2 (img.width - 2 * cx) ∧
      blockDim img.height (2 * cy) = min 2 (img.height - 2 * cy) ∧
      (ColorToYUV8 img kc YUVChromaSubsampling.Subsampling420 yS uS vS st).uPlane
          (cx + cy * uS) =
        some (yuvToUNorm YuvChannel.U
          (blockSumU img kc (2 * cx) (2 * cy)
              (blockDim img.width (2 * cx)) (blockDim img.height (2 * cy)) /
            ((blockDim img.width (2 * cx) * blockDim img.height (2 * cy) : Nat) : ℚ))) ∧
      (ColorToYUV8 img kc YUVChromaSubsampling.Subsampling420 yS uS vS st).vPlane
          (cx + cy * vS) =
        some (yuvToUNorm YuvChannel.V
          (blockSumV img kc (2 * cx) (2 * cy)
              (blockDim img.width (2 * cx)) (blockDim img.height (2 * cy)) /
            ((blockDim img.width (2 * cx) * blockDim img.height (2 * cy) : Nat) : ℚ)))) ∧
    (img.width % 2 = 1 → img.height % 2 = 1 →
      (ColorToYUV8 img kc YUVChromaSubsampling.Subsampling420 yS uS vS st).uPlane
          (img.width / 2 + img.height / 2 * uS) =
        some (yuvToUNorm YuvChannel.U
          (rgbToYuv kc (img.pixelAt (img.width - 1) (img.height - 1))).u) ∧
      (ColorToYUV8 img kc YUVChromaSubsampling.Subsampling420 yS uS vS st).vPlane
          (img.width / 2 + img.height / 2 * vS) =
        some (yuvToUNorm YuvChannel.V
          (rgbToYuv kc (img.pixelAt (img.width - 1) (img.height - 1))).v)) ∧
    (∀ cx y, cx < (img.width + 1) / 2 → y < img.height →
      (ColorToYUV8 img kc YUVChromaSubsampling.Subsampling422 yS uS vS st).uPlane
          (cx + y * uS) =
        some (yuvToUNorm YuvChannel.U
          (rowSumU img kc (2 * cx) y (blockDim img.width (2 * cx)) /
            ((blockDim img.width (2 * cx) : Nat) : ℚ))) ∧
      (ColorToYUV8 img kc YUVChromaSubsampling.Subsampling422 yS uS vS st).vPlane
          (cx + y * vS) =
        some (yuvToUNorm YuvChannel.V
          (rowSumV img kc (2 * cx) y (blockDim img.width (2 * cx)) /
            ((blockDim img.width (2 * cx) : Nat) : ℚ)))) := by
  refine ⟨?_, ?_, ?_⟩
  · intro cx cy hcx hcy
    exact ⟨blockDim_eq_min _ _ (by omega), blockDim_eq_min _ _ (by omega),
      chroma420_u_value img kc yS uS vS st hu cx cy hcx hcy,
      chroma420_v_value img kc yS uS vS st hv cx cy hcx hcy⟩
  · intro hwodd hhodd
    have hcx : img.width / 2 < (img.width + 1) / 2 := by omega
    have hcy : img.height / 2 < (img.height + 1) / 2 := by omega
    have hbw : blockDim img.width (2 * (img.width / 2)) = 1 := by
      unfold blockDim
      split <;> omega
    have hbh : blockDim img.height (2 * (img.height / 2)) = 1 := by
      unfold blockDim
      split <;> omega
    have e1 : 2 * (img.width / 2) = img.width - 1 := by omega
    have e2 : 2 * (img.height / 2) = img.height - 1 := by omega
    constructor
    · rw [chroma420_u_value img kc yS uS vS st hu _ _ hcx hcy, hbw, hbh,
        blockSumU_one_one, e1, e2]
      norm_num
    · rw [chroma420_v_value img kc yS uS vS st hv _ _ hcx hcy, hbw, hbh,
        blockSumV_one_one, e1, e2]
      norm_num
  · intro cx y hcx hy
    exact ⟨chroma422_u_value img kc yS uS vS st hu cx hcx y hy,
      chroma422_v_value img kc yS uS vS st hv cx hcx y hy⟩

/-- Witness for C4 at a concrete input: the bottom-right 1x1 corner block of
a 3x3 raster under 4:2:0. -/
theorem chroma_blocks_average_actual_samples_witness :
    (ColorToYUV8 sampleImage3x3 sampleCoefficiants
        YUVChromaSubsampling.Subsampling420 4 2 2 emptyPlanes).uPlane
        (sampleImage3x3.width / 2 + sampleImage3x3.height / 2 * 2) =
      some (yuvToUNorm YuvChannel.U
        (rgbToYuv sampleCoefficiants
          (sampleImage3x3.pixelAt (sampleImage3x3.width - 1)
            (sampleImage3x3.height - 1))).u) :=
  ((chroma_blocks_average_actual_samples sampleImage3x3 sampleCoefficiants 4 2 2
      emptyPlanes (by decide) (by decide)).2.1 (by decide) (by decide)).1

/-- Claim C10: noninterference between the color and alpha encode inputs:
two rasters of the same dimensions that agree on every blue, green and red
byte produce identical Y, U and V planes under `ColorToYUV8` (for every
subsampling mode), however their alpha bytes differ; dually, two rasters
that agree on every alpha byte produce identical luma planes under
`AlphaToY8`, however their color bytes differ. -/
theorem color_alpha_noninterference (img1 img2 : BitmapData) (kc : YUVCoefficiants)
    (fmt : YUVChromaSubsampling) (yS uS vS : Nat) (st : YUVPlanes) (p : Plane)
    (hw : img1.width = img2.width) (hh : img1.height = img2.height) :
    ((∀ x y, x < img1.width → y < img1.height →
        (img1.pixelAt x y).b = (img2.pixelAt x y).b ∧
        (img1.pixelAt x y).g = (img2.pixelAt x y).g ∧
        (img1.pixelAt x y).r = (img2.pixelAt x y).r) →
      ColorToYUV8 img1 kc fmt yS uS vS st = ColorToYUV8 img2 kc fmt yS uS vS st) ∧
    ((∀ x y, x < img1.width → y < img1.height →
        (img1.pixelAt x y).a = (img2.pixelAt x y).a) →
      AlphaToY8 img1 yS p = AlphaToY8 img2 yS p) := by
  constructor
  · intro hpx
    unfold ColorToYUV8
    rw [← hw, ← hh]
    apply foldl_congr_mem
    intro iY hiY s
    apply foldl_congr_mem
    intro iX hiX t
    exact processBlock_congr img1 img2 kc fmt yS uS vS iX iY hw hh hpx
      (mem_evenPositions _ _ hiX).1 (mem_evenPositions _ _ hiY).1 t
  · intro hpa
    unfold AlphaToY8
    rw [← hw, ← hh]
    apply foldl_congr_mem
    intro y hy q
    apply foldl_congr_mem
    intro x hx q2
    rw [hpa x y (List.mem_range.mp hx) (List.mem_range.mp hy)]

/-- Witness for C10 at concrete inputs: a pair differing only in alpha and a
pair differing only in the color bytes. -/
theorem color_alpha_noninterference_witness :
    ColorToYUV8 sampleImage1x1 sampleCoefficiants
        YUVChromaSubsampling.Subsampling444 4 4 4 emptyPlanes =
      ColorToYUV8 sampleImage1x1Alpha sampleCoefficiants
        YUVChromaSubsampling.Subsampling444 4 4 4 emptyPlanes ∧
    AlphaToY8 sampleImage1x1 1 freshPlane = AlphaToY8 sampleImage1x1Color 1 freshPlane :=
  ⟨(color_alpha_noninterference sampleImage1x1 sampleImage1x1Alpha sampleCoefficiants
      YUVChromaSubsampling.Subsampling444 4 4 4 emptyPlanes freshPlane rfl rfl).1
      (fun _ _ _ _ => ⟨rfl, rfl, rfl⟩),
   (color_alpha_noninterference sampleImage1x1 sampleImage1x1Color sampleCoefficiants
      YUVChromaSubsampling.Subsampling444 4 4 4 emptyPlanes freshPlane rfl rfl).2
      (fun _ _ _ _ => rfl)⟩

/-- Claim C1 (code bug): the orchestrator maps identity-matrix mode to the
full-resolution three-plane I444 pixel format, but `ColorToYUV8` tests only
for `Subsampling444` (line 146), so under `IdentityMatrix` it writes no U or
V sample at all: the chroma planes of the allocated I444 image are left
untouched (uninitialized), contradicting the spec's treat-as-4:4:4 rule. -/
theorem identityMatrix_chroma_never_written (img : BitmapData) (kc : YUVCoefficiants)
    (yS uS vS : Nat) (st : YUVPlanes) :
    aomFormatFor YUVChromaSubsampling.IdentityMatrix = some AomImgFmt.I444 ∧
    (ColorToYUV8 img kc YUVChromaSubsampling.IdentityMatrix yS uS vS st).uPlane = st.uPlane ∧
    (ColorToYUV8 img kc YUVChromaSubsampling.IdentityMatrix yS uS vS st).vPlane = st.vPlane := by
  refine ⟨rfl, ?_, ?_⟩
  · rw [ColorToYUV8_uPlane]
    have h : uWrites img kc YUVChromaSubsampling.IdentityMatrix uS = [] := by
      unfold uWrites uWritesOfBlock
      simp
    rw [h, applyWrites_nil]
  · rw [ColorToYUV8_vPlane]
    have h : vWrites img kc YUVChromaSubsampling.IdentityMatrix vS = [] := by
      unfold vWrites vWritesOfBlock
      simp
    rw [h, applyWrites_nil]

/-- Claim C3: the luma plane produced by `ColorToYUV8` does not depend on the
requested chroma subsampling mode at all; in particular it is byte-identical
at every address whether 4:2:0, 4:2:2 or 4:4:4 is requested. -/
theorem luma_plane_mode_invariant (img : BitmapData) (kc : YUVCoefficiants)
    (yS uS vS : Nat) (st : YUVPlanes) (fmt1 fmt2 : YUVChromaSubsampling) :
    (ColorToYUV8 img kc fmt1 yS uS vS st).yPlane =
      (ColorToYUV8 img kc fmt2 yS uS vS st).yPlane := by
  rw [ColorToYUV8_yPlane, ColorToYUV8_yPlane]

/-- Claim C5: at every pixel `(x, y)` of the raster, `AlphaToY8` stores the
luma plane byte at address `x + y * stride` equal to the source pixel's
alpha byte, unmodified: a verbatim copy with no color math, averaging or
bias. -/
theorem alpha_copied_verbatim (img : BitmapData) (yS : Nat) (p : Plane)
    (hstride : img.width ≤ yS) (x y : Nat) (hx : x < img.width) (hy : y < img.height) :
    AlphaToY8 img yS p (x + y * yS) = some (img.pixelAt x y).a := by
  rw [AlphaToY8_eq]
  apply applyWrites_eq_of_mem
  · unfold alphaWrites
    simp only [List.mem_flatMap, List.mem_map, List.mem_range]
    exact ⟨y, hy, x, hx, rfl⟩
  · intro w hw haddr
    unfold alphaWrites at hw
    simp only [List.mem_flatMap, List.mem_map, List.mem_range] at hw
    obtain ⟨y', hy', x', hx', rfl⟩ := hw
    obtain ⟨hx2, hy2⟩ := addr_inj yS x y x' y'
      (Nat.lt_of_lt_of_le hx hstride) (Nat.lt_of_lt_of_le hx' hstride) haddr
    subst hx2
    subst hy2
    rfl

/-- Witness for C5 at a concrete input. -/
theorem alpha_copied_verbatim_witness :
    AlphaToY8 sampleImage1x1 1 freshPlane (0 + 0 * 1) =
      some (sampleImage1x1.pixelAt 0 0).a :=
  alpha_copied_verbatim sampleImage1x1 1 freshPlane (by decide) 0 0 (by decide) (by decide)

/-- Claim C2 (code bug): `ConvertAlphaToAOMImage` zeroes only `height / 2`
chroma rows (`uvHeight = bgraImage->height / 2`, rounding down), while the
4:2:0 chroma planes of the backing image object have `(height + 1) / 2`
rows.  For every odd-height raster the last chroma row is left uninitialized
(`none`), contradicting the spec's complete zero-fill; rows below
`height / 2` are fully zeroed. -/
theorem alpha_chroma_zero_fill_gap (img : BitmapData) (yS uS vS : Nat)
    (hodd : img.height % 2 = 1) :
    img.height / 2 < (img.height + 1) / 2 ∧
    (∀ off, off < uS →
      (ConvertAlphaToAOMImage img yS uS vS).uPlane (img.height / 2 * uS + off) = none) ∧
    (∀ off, off < vS →
      (ConvertAlphaToAOMImage img yS uS vS).vPlane (img.height / 2 * vS + off) = none) ∧
    (∀ y off, y < img.height / 2 → off < uS →
      (ConvertAlphaToAOMImage img yS uS vS).uPlane (y * uS + off) = some 0) ∧
    (∀ y off, y < img.height / 2 → off < vS →
      (ConvertAlphaToAOMImage img yS uS vS).vPlane (y * vS + off) = some 0) := by
  refine ⟨by omega, ?_, ?_, ?_, ?_⟩
  · intro off hoff
    show ((List.range (img.height / 2)).foldl (fun p y => memsetRow p (y * uS) uS)
      freshPlane) (img.height / 2 * uS + off) = none
    rw [memsetFold_miss]
    · rfl
    · rintro y hy ⟨hle, hlt⟩
      have h1 : (y + 1) * uS ≤ img.height / 2 * uS :=
        Nat.mul_le_mul_right _ (by omega)
      rw [Nat.succ_mul] at h1
      exact absurd hlt (Nat.not_lt.mpr (le_trans h1 (Nat.le_add_right _ _)))
  · intro off hoff
    show ((List.range (img.height / 2)).foldl (fun p y => memsetRow p (y * vS) vS)
      freshPlane) (img.height / 2 * vS + off) = none
    rw [memsetFold_miss]
    · rfl
    · rintro y hy ⟨hle, hlt⟩
      have h1 : (y + 1) * vS ≤ img.height / 2 * vS :=
        Nat.mul_le_mul_right _ (by omega)
      rw [Nat.succ_mul] at h1
      exact absurd hlt (Nat.not_lt.mpr (le_trans h1 (Nat.le_add_right _ _)))
  · intro y off hy hoff
    show ((List.range (img.height / 2)).foldl (fun p y => memsetRow p (y * uS) uS)
      freshPlane) (y * uS + off) = some 0
    exact memsetFold_hit _ _ _ y freshPlane hy (Nat.le_add_right _ _)
      (Nat.add_lt_add_left hoff _)
  · intro y off hy hoff
    show ((List.range (img.height / 2)).foldl (fun p y => memsetRow p (y * vS) vS)
      freshPlane) (y * vS + off) = some 0
    exact memsetFold_hit _ _ _ y freshPlane hy (Nat.le_add_right _ _)
      (Nat.add_lt_add_left hoff _)

/-- Witness for C2 at a concrete input: a 1x1 raster (odd height), whose
single chroma row is left uninitialized. -/
theorem alpha_chroma_zero_fill_gap_witness :
    sampleImage1x1.height % 2 = 1 ∧
    (ConvertAlphaToAOMImage sampleImage1x1 4 1 1).uPlane
      (sampleImage1x1.height / 2 * 1 + 0) = none :=
  ⟨by decide, (alpha_chroma_zero_fill_gap sampleImage1x1 4 1 1 (by decide)).2.1 0 (by decide)⟩

/-- Unfolding of `CompressImage` when the three pointer parameters are
non-null. -/
theorem CompressImage_some (img : BitmapData) (opts : EncoderOptions)
    (pc : ProgressContext) (oa cc ca colorAllocOk alphaAllocOk : Bool)
    (codecStatus : EncoderStatus) :
    CompressImage (some img) (some opts) (some pc) oa cc ca
        colorAllocOk alphaAllocOk codecStatus =
      (if oa = false ∨ cc = false then
        (EncoderStatus.NullParameter, some pc, Trace.empty)
      else if pc.progressCallback (pc.progressDone + 1) pc.progressTotal = false then
        (EncoderStatus.UserCancelled,
         some { pc with progressDone := pc.progressDone + 1 },
         { Trace.empty with callbackCalls := 1 })
      else
        ((CompressWithAOM opts ca colorAllocOk alphaAllocOk codecStatus
            { Trace.empty with callbackCalls := 1 }).1,
         some { pc with progressDone := pc.progressDone + 1 },
         (CompressWithAOM opts ca colorAllocOk alphaAllocOk codecStatus
            { Trace.empty with callbackCalls := 1 }).2)) := rfl

/-- `CompressWithAOM` never invokes the progress callback: the callback
counter of the trace passes through unchanged. -/
theorem CompressWithAOM_callbackCalls (opts : EncoderOptions) (ar c a : Bool)
    (cs : EncoderStatus) (t : Trace) :
    (CompressWithAOM opts ar c a cs t).2.callbackCalls = t.callbackCalls := by
  unfold CompressWithAOM
  cases aomFormatFor opts.yuvFormat
  · rfl
  · cases c <;> cases a <;> cases ar <;> rfl

/-- Claim C6: with all required parameters present, if the progress callback
returns cancel on its first invocation (made with the pre-incremented done
counter), `CompressImage` returns `UserCancelled` and the effect trace shows
exactly one callback call and no allocation attempt, no conversion and no
codec invocation. -/
theorem cancel_before_any_work (img : BitmapData) (opts : EncoderOptions)
    (pc : ProgressContext) (ca colorAllocOk alphaAllocOk : Bool)
    (codecStatus : EncoderStatus)
    (hcancel : pc.progressCallback (pc.progressDone + 1) pc.progressTotal = false) :
    CompressImage (some img) (some opts) (some pc) true true ca
        colorAllocOk alphaAllocOk codecStatus =
      (EncoderStatus.UserCancelled,
       some { pc with progressDone := pc.progressDone + 1 },
       { Trace.empty with callbackCalls := 1 }) := by
  rw [CompressImage_some, if_neg (by simp), if_pos hcancel]

/-- Witness for C6 at a concrete input. -/
theorem cancel_before_any_work_witness :
    CompressImage (some sampleImage1x1) (some sampleOptions420) (some cancelContext)
        true true false true true EncoderStatus.Ok =
      (EncoderStatus.UserCancelled,
       some { cancelContext with progressDone := cancelContext.progressDone + 1 },
       { Trace.empty with callbackCalls := 1 }) :=
  cancel_before_any_work sampleImage1x1 sampleOptions420 cancelContext false true true
    EncoderStatus.Ok rfl

/-- Claim C7: if any of image, encode options, progress context, output
allocator or compressed color image out-pointer is null, `CompressImage`
returns `NullParameter` with the progress context unchanged and an empty
effect trace (no callback invocation, no counter change, no allocation);
with those five present, a null `compressedAlphaImage` alone does not
trigger the rejection: the call goes on to invoke the progress callback
exactly once. -/
theorem null_parameter_rejection (image : Option BitmapData)
    (encodeOptions : Option EncoderOptions) (progressContext : Option ProgressContext)
    (oa cc ca colorAllocOk alphaAllocOk : Bool) (codecStatus : EncoderStatus) :
    (image = none ∨ encodeOptions = none ∨ progressContext = none ∨
        oa = false ∨ cc = false →
      CompressImage image encodeOptions progressContext oa cc ca
          colorAllocOk alphaAllocOk codecStatus =
        (EncoderStatus.NullParameter, progressContext, Trace.empty)) ∧
    (image ≠ none → encodeOptions ≠ none → progressContext ≠ none →
      oa = true → cc = true →
      (CompressImage image encodeOptions progressContext oa cc ca
          colorAllocOk alphaAllocOk codecStatus).2.2.callbackCalls = 1) := by
  constructor
  · intro h
    rcases image with _ | img
    · rfl
    · rcases encodeOptions with _ | opts
      · rfl
      · rcases progressContext with _ | pc
        · rfl
        · have hoc : oa = false ∨ cc = false := by
            rcases h with h | h | h | h | h
            · exact absurd h (by simp)
            · exact absurd h (by simp)
            · exact absurd h (by simp)
            · exact Or.inl h
            · exact Or.inr h
          rw [CompressImage_some, if_pos hoc]
  · intro h1 h2 h3 hoa hcc
    rcases image with _ | img
    · exact absurd rfl h1
    · rcases encodeOptions with _ | opts
      · exact absurd rfl h2
      · rcases progressContext with _ | pc
        · exact absurd rfl h3
        · subst hoa
          subst hcc
          rw [CompressImage_some, if_neg (by simp)]
          by_cases hcb : pc.progressCallback (pc.progressDone + 1) pc.progressTotal = false
          · rw [if_pos hcb]
          · rw [if_neg hcb]
            exact CompressWithAOM_callbackCalls opts ca colorAllocOk alphaAllocOk codecStatus _

/-- Witness for C7 at concrete inputs: a null image is rejected with no
observable effect; with the five required parameters present and a null
alpha out-pointer, the callback still runs once. -/
theorem null_parameter_rejection_witness :
    CompressImage none (some sampleOptions420) (some okContext) true true true
        true true EncoderStatus.Ok =
      (EncoderStatus.NullParameter, some okContext, Trace.empty) ∧
    (CompressImage (some sampleImage1x1) (some sampleOptions420) (some okContext)
        true true false true true EncoderStatus.Ok).2.2.callbackCalls = 1 :=
  ⟨(null_parameter_rejection none (some sampleOptions420) (some okContext) true true true
      true true EncoderStatus.Ok).1 (Or.inl rfl),
   (null_parameter_rejection (some sampleImage1x1) (some sampleOptions420) (some okContext)
      true true false true true EncoderStatus.Ok).2 (by simp) (by simp) (by simp) rfl rfl⟩

/-- Claim C8: if the encode options carry a subsampling enumerant that is
not one of the five recognized values, the compression path returns
`UnknownYUVFormat`, and the trace records zero allocation attempts: the
failure precedes any native planar image allocation. -/
theorem unknown_yuv_format_before_alloc (img : BitmapData) (opts : EncoderOptions)
    (pc : ProgressContext) (ca colorAllocOk alphaAllocOk : Bool)
    (codecStatus : EncoderStatus)
    (hfmt : opts.yuvFormat ∉ ([YUVChromaSubsampling.Subsampling400,
      YUVChromaSubsampling.Subsampling420, YUVChromaSubsampling.Subsampling422,
      YUVChromaSubsampling.Subsampling444,
      YUVChromaSubsampling.IdentityMatrix] : List YUVChromaSubsampling))
    (hcb : pc.progressCallback (pc.progressDone + 1) pc.progressTotal = true) :
    CompressImage (some img) (some opts) (some pc) true true ca
        colorAllocOk alphaAllocOk codecStatus =
      (EncoderStatus.UnknownYUVFormat,
       some { pc with progressDone := pc.progressDone + 1 },
       { Trace.empty with callbackCalls := 1 }) := by
  have hnone : aomFormatFor opts.yuvFormat = none := by
    cases h : opts.yuvFormat <;> simp_all [aomFormatFor]
  rw [CompressImage_some, if_neg (by simp), if_neg (by simp [hcb])]
  unfold CompressWithAOM
  rw [hnone]

/-- Witness for C8 at a concrete input. -/
theorem unknown_yuv_format_before_alloc_witness :
    CompressImage (some sampleImage1x1) (some sampleOptionsBad) (some okContext)
        true true true true true EncoderStatus.Ok =
      (EncoderStatus.UnknownYUVFormat,
       some { okContext with progressDone := okContext.progressDone + 1 },
       { Trace.empty with callbackCalls := 1 }) :=
  unknown_yuv_format_before_alloc sampleImage1x1 sampleOptionsBad okContext true true true
    EncoderStatus.Ok (by decide) rfl

/-- Claim C9: when the color allocation succeeds and the alpha allocation
then fails, `CompressImage` returns `OutOfMemory` with a trace showing one
successful allocation and one free (the scoped color image's deleter ran),
one color conversion, and no codec invocation: allocations and
deallocations balance on this error path. -/
theorem color_released_on_alpha_alloc_failure (img : BitmapData) (opts : EncoderOptions)
    (pc : ProgressContext) (codecStatus : EncoderStatus) (fmt : AomImgFmt)
    (hfmt : aomFormatFor opts.yuvFormat = some fmt)
    (hcb : pc.progressCallback (pc.progressDone + 1) pc.progressTotal = true) :
    CompressImage (some img) (some opts) (some pc) true true true
        true false codecStatus =
      (EncoderStatus.OutOfMemory,
       some { pc with progressDone := pc.progressDone + 1 },
       { callbackCalls := 1, allocAttempts := 2, allocSuccesses := 1, frees := 1,
         colorConversions := 1, alphaConversions := 0, codecCalls := 0 }) := by
  rw [CompressImage_some, if_neg (by simp), if_neg (by simp [hcb])]
  unfold CompressWithAOM
  rw [hfmt]
  rfl

/-- Witness for C9 at a concrete input. -/
theorem color_released_on_alpha_alloc_failure_witness :
    CompressImage (some sampleImage1x1) (some sampleOptions420) (some okContext)
        true true true true false EncoderStatus.Ok =
      (EncoderStatus.OutOfMemory,
       some { okContext with progressDone := okContext.progressDone + 1 },
       { callbackCalls := 1, allocAttempts := 2, allocSuccesses := 1, frees := 1,
         colorConversions := 1, alphaConversions := 0, codecCalls := 0 }) :=
  color_released_on_alpha_alloc_failure sampleImage1x1 sampleOptions420 okContext
    EncoderStatus.Ok AomImgFmt.I420 rfl rfl

end AvifNative
